import Mathlib

/-!
Shallow embedding of the core of the `rust-subprocess` library
(`src/popen.rs`, with `src/win32.rs` for the Windows command line), together
with theorems checking the natural-language specification against it.

Streams and file descriptors are represented symbolically by `Endpoint`;
OS primitives (`posix::pipe`, `posix::waitpid`, `win32::WaitForSingleObject`,
clock reads, pipe I/O) are oracles passed in as explicit parameters, so that
the control flow of `popen.rs` itself is what the definitions capture.
-/

set_option maxHeartbeats 1000000

namespace Subprocess

/-- Modelled from the spec: `ExitStatus` of the missing `common.rs` (spec §3):
`Exited(u32)`, `Signaled(u8)`, `Other(i32)`, `Undetermined`. -/
inductive ExitStatus where
  | Exited (code : Nat)
  | Signaled (sig : Nat)
  | Other (raw : Int)
  | Undetermined
deriving DecidableEq, Repr

/-- Modelled from the spec: `StandardStream` of the missing `common.rs`,
designating one of the parent's three standard streams. -/
inductive StandardStream where
  | Input
  | Output
  | Error
deriving DecidableEq, Repr

/-- Redirection spec for one stream (`Redirection` in `popen.rs`).  The `file`
constructor carries an identifier standing for the already-open `File`. -/
inductive Redirection where
  | none
  | file (id : Nat)
  | pipe
  | merge
deriving DecidableEq, Repr

/-- Error type (`PopenError` in `popen.rs`); `ioError` carries the raw OS
error code of the wrapped `io::Error`. -/
inductive PopenError where
  | utfError
  | ioError (code : Int)
  | logicError (msg : String)
deriving DecidableEq, Repr

/-- Symbolic file descriptor / handle: the two ends of numbered pipes, user
supplied files, clones of the parent's standard streams
(`clone_standard_stream`), and duplicates made by `try_clone`. -/
inductive Endpoint where
  | pipeRead (n : Nat)
  | pipeWrite (n : Nat)
  | fileEnd (id : Nat)
  | stdClone (s : StandardStream)
  | dupOf (e : Endpoint)
deriving DecidableEq, Repr

/-- Whether the endpoint is a `try_clone` duplicate of another endpoint. -/
def Endpoint.isDup : Endpoint → Bool
  | .dupOf _ => true
  | _ => false

/-- State threaded through `make_child_streams`: a counter allocating fresh
pipe numbers, the log of `set_inheritable` calls (most recent first), and the
parent-side slots stored on the handle (`self.stdin`, `self.stdout`,
`self.stderr`). -/
structure MCS where
  next : Nat := 0
  inh : List (Endpoint × Bool) := []
  pstdin : Option Endpoint := Option.none
  pstdout : Option Endpoint := Option.none
  pstderr : Option Endpoint := Option.none
deriving DecidableEq, Repr

/-- Inheritable status of an endpoint after the logged `set_inheritable`
calls; ends start inheritable by default (POSIX pipes, files). -/
def inhStatus : List (Endpoint × Bool) → Endpoint → Bool
  | [], _ => true
  | (e', b) :: rest, e => if e' = e then b else inhStatus rest e

/-- Record one `os::set_inheritable(e, b)` call. -/
def setInh (e : Endpoint) (b : Bool) (st : MCS) : MCS :=
  { st with inh := (e, b) :: st.inh }

/-- Translation of the nested fn `prepare_pipe` of `make_child_streams`:
allocate a pipe, pick the parent end (the write end when `for_write`), demote
it to non-inheritable, and hand back `(child_end, parent_end, state)`; the
caller stores the parent end in the handle slot. -/
def preparePipe (for_write : Bool) (st : MCS) : Endpoint × Endpoint × MCS :=
  let r := Endpoint.pipeRead st.next
  let w := Endpoint.pipeWrite st.next
  let st1 : MCS := { st with next := st.next + 1 }
  let pe := if for_write then w else r
  let ce := if for_write then r else w
  (ce, pe, setInh pe false st1)

/-- Translation of the nested fn `prepare_file`: promote the given file to
inheritable and use it as the child end. -/
def prepareFile (id : Nat) (st : MCS) : Endpoint × MCS :=
  (Endpoint.fileEnd id, setInh (Endpoint.fileEnd id) true st)

/-- The `MergeKind` enum local to `make_child_streams`. -/
inductive MergeKind where
  | OutToErr
  | ErrToOut
  | none
deriving DecidableEq, Repr

/-- Translation of the nested fn `dup_child_stream`: if the slot is empty,
fill it with a clone of the given parent standard stream, then `try_clone`
the slot's endpoint.  Returns the duplicate and the updated slot. -/
def dupChildStream (slot : Option Endpoint) (s : StandardStream) :
    Endpoint × Option Endpoint :=
  match slot with
  | Option.none => (Endpoint.dupOf (Endpoint.stdClone s), some (Endpoint.stdClone s))
  | some e => (Endpoint.dupOf e, some e)

/-- The stdin arm of `make_child_streams`: `Pipe` allocates a pipe with the
parent keeping the write end, `File` is promoted to inheritable, `Merge` is a
logic error, `None` leaves the slot empty. -/
def mcsStdin (r : Redirection) (st : MCS) :
    Except PopenError (Option Endpoint × MCS) :=
  match r with
  | .pipe =>
    let x := preparePipe true st
    .ok (some x.1, { x.2.2 with pstdin := some x.2.1 })
  | .file id =>
    let y := prepareFile id st
    .ok (some y.1, y.2)
  | .merge => .error (.logicError "Redirection::Merge not valid for stdin")
  | .none => .ok (Option.none, st)

/-- The stdout arm of `make_child_streams`; `Merge` only records
`MergeKind::ErrToOut` for the resolution pass. -/
def mcsStdout (r : Redirection) (st : MCS) :
    Option Endpoint × MergeKind × MCS :=
  match r with
  | .pipe =>
    let x := preparePipe false st
    (some x.1, MergeKind.none, { x.2.2 with pstdout := some x.2.1 })
  | .file id =>
    let y := prepareFile id st
    (some y.1, MergeKind.none, y.2)
  | .merge => (Option.none, MergeKind.ErrToOut, st)
  | .none => (Option.none, MergeKind.none, st)

/-- The stderr arm of `make_child_streams`; `Merge` overwrites the merge kind
with `MergeKind::OutToErr` (the `merge` variable is single-assignment per arm
but stderr is processed after stdout). -/
def mcsStderr (r : Redirection) (m : MergeKind) (st : MCS) :
    Option Endpoint × MergeKind × MCS :=
  match r with
  | .pipe =>
    let x := preparePipe false st
    (some x.1, m, { x.2.2 with pstderr := some x.2.1 })
  | .file id =>
    let y := prepareFile id st
    (some y.1, m, y.2)
  | .merge => (Option.none, MergeKind.OutToErr, st)
  | .none => (Option.none, m, st)

/-- Translation of `Popen::make_child_streams`: process the three redirection
specs in order stdin, stdout, stderr, then resolve a recorded merge by
duplicating the other stream's child endpoint via `dup_child_stream`.
Returns the three child-side endpoints and the updated handle state. -/
def makeChildStreams (stdinR stdoutR stderrR : Redirection) (st : MCS) :
    Except PopenError ((Option Endpoint × Option Endpoint × Option Endpoint) × MCS) :=
  match mcsStdin stdinR st with
  | .error e => .error e
  | .ok (cin, st1) =>
    let a := mcsStdout stdoutR st1
    let b := mcsStderr stderrR a.2.1 a.2.2
    match b.2.1 with
    | .OutToErr =>
      let d := dupChildStream a.1 StandardStream.Output
      .ok ((cin, d.2, some d.1), b.2.2)
    | .ErrToOut =>
      let d := dupChildStream b.1 StandardStream.Error
      .ok ((cin, some d.1, d.2), b.2.2)
    | .none => .ok ((cin, a.1, b.1), b.2.2)

/-! ### Decimal formatting and parsing over the exec-fail pipe

The child writes `format!("{}", error_code)` (an ASCII decimal rendering of an
`i32`) to the error pipe; the parent parses it back with
`error_string.parse::<i32>()`.  Pipe contents are modelled as lists of byte
values. -/

/-- Decimal digits (byte values `48..57`) of a natural number, most
significant first; the rendering used by `format!("{}", n)`. -/
def natToDec (n : Nat) : List Nat :=
  if _h : n < 10 then [48 + n]
  else natToDec (n / 10) ++ [48 + n % 10]
decreasing_by exact Nat.div_lt_self (by omega) (by omega)

/-- Rendering of `format!("{}", i)` for an `i32` value: a minus sign (byte 45)
followed by the decimal digits of the absolute value, or just the digits. -/
def formatInt (i : Int) : List Nat :=
  if i < 0 then 45 :: natToDec i.natAbs else natToDec i.toNat

/-- Numeric value of one ASCII digit byte, if it is a digit. -/
def digitVal (c : Nat) : Option Nat :=
  if 48 ≤ c ∧ c ≤ 57 then some (c - 48) else Option.none

/-- Accumulating decimal evaluator over digit bytes; fails on a non-digit. -/
def parseDigitsGo : List Nat → Nat → Option Nat
  | [], acc => some acc
  | c :: rest, acc =>
    match digitVal c with
    | some d => parseDigitsGo rest (acc * 10 + d)
    | Option.none => Option.none

/-- Value of a non-empty all-digit byte string. -/
def parseDigits (s : List Nat) : Option Nat :=
  if s = [] then Option.none else parseDigitsGo s 0

/-- Model of Rust `str::parse::<i32>()`: optional sign, at least one digit,
and the value must fit in an `i32`. -/
def parseI32 (s : List Nat) : Option Int :=
  match s with
  | [] => Option.none
  | c :: rest =>
    if c = 45 then
      (parseDigits rest).bind fun d =>
        if d ≤ 2 ^ 31 then some (-(d : Int)) else Option.none
    else if c = 43 then
      (parseDigits rest).bind fun d =>
        if d < 2 ^ 31 then some ((d : Int)) else Option.none
    else
      (parseDigits s).bind fun d =>
        if d < 2 ^ 31 then some ((d : Int)) else Option.none

/-! ### The POSIX `start` (spawn) protocol -/

/-- Outcome of the modelled POSIX `start`: the value returned to the caller
(`Option.none` models a parent-side panic from `.expect(...)`), whether a
child process was forked, the exit the forked child performs when its
`do_exec` fails, and the pid field plus stream state of the handle. -/
structure StartOutcome where
  result : Option (Except PopenError Unit)
  spawned : Bool
  childExit : Option ExitStatus
  pid : Option Nat
  st : MCS
deriving Repr

/-- Translation of the POSIX `PopenOs::start` of `popen.rs`.  The fate of the
child's `do_exec(argv, ...)` is the oracle `execFail`: `Option.none` means the
exec succeeded (the child is now running the program), `some oe` means it
failed with `raw_os_error() = oe`.  The parent creates the CLOEXEC error
pipe, builds the child streams, forks, and reads the error pipe to EOF: the
failed child has written `format!("{}", e.raw_os_error().unwrap_or(-1))` and
exited with status 127, so a non-empty read is parsed and surfaced as the
spawn error. -/
def startPosix (stdinR stdoutR stderrR : Redirection)
    (execFail : Option (Option Int)) (childPid : Nat) (st : MCS) :
    StartOutcome :=
  let n := st.next
  let st1 : MCS := { st with next := n + 1 }
  let st2 := setInh (Endpoint.pipeWrite n) false (setInh (Endpoint.pipeRead n) false st1)
  match makeChildStreams stdinR stdoutR stderrR st2 with
  | .error e =>
    { result := some (.error e), spawned := false,
      childExit := Option.none, pid := Option.none, st := st2 }
  | .ok (_, st') =>
    let pipeContent : List Nat :=
      match execFail with
      | Option.none => []
      | some oe => formatInt (oe.getD (-1))
    let childExit : Option ExitStatus :=
      match execFail with
      | Option.none => Option.none
      | some _ => some (.Exited 127)
    let res : Option (Except PopenError Unit) :=
      if pipeContent.length ≠ 0 then
        match parseI32 pipeContent with
        | some c => some (.error (.ioError c))
        | Option.none => Option.none
      else
        some (.ok ())
    { result := res, spawned := true, childExit := childExit,
      pid := some childPid, st := st' }

/-! ### Round trip of the decimal error code -/

theorem natToDec_ne_nil (n : Nat) : natToDec n ≠ [] := by
  rw [natToDec]
  split <;> simp

theorem parseDigitsGo_append (xs ys : List Nat) (acc : Nat) :
    parseDigitsGo (xs ++ ys) acc =
      match parseDigitsGo xs acc with
      | some a => parseDigitsGo ys a
      | Option.none => Option.none := by
  induction xs generalizing acc with
  | nil => simp [parseDigitsGo]
  | cons c rest ih =>
    simp only [List.cons_append, parseDigitsGo]
    cases digitVal c with
    | none => simp
    | some d => simpa using ih _

theorem parseDigitsGo_natToDec (n : Nat) :
    ∀ acc, parseDigitsGo (natToDec n) acc =
      some (acc * 10 ^ (natToDec n).length + n) := by
  induction n using Nat.strong_induction_on with
  | _ n ih =>
    intro acc
    by_cases h : n < 10
    · rw [natToDec]
      simp only [h, dif_pos]
      have hd : digitVal (48 + n) = some n := by
        simp [digitVal]
        omega
      simp [parseDigitsGo, hd]
    · rw [natToDec]
      simp only [h, dif_neg, not_false_iff]
      rw [parseDigitsGo_append]
      rw [ih (n / 10) (Nat.div_lt_self (by omega) (by omega)) acc]
      have hd : digitVal (48 + n % 10) = some (n % 10) := by
        simp [digitVal]
        omega
      simp only [parseDigitsGo, hd, List.length_append, List.length_cons,
        List.length_nil]
      rw [pow_succ, ← mul_assoc]
      generalize acc * 10 ^ (natToDec (n / 10)).length = A
      congr 1
      omega

theorem parseDigits_natToDec (n : Nat) : parseDigits (natToDec n) = some n := by
  rw [parseDigits, if_neg (natToDec_ne_nil n)]
  simpa using parseDigitsGo_natToDec n 0

theorem natToDec_head_digit (n : Nat) :
    ∀ c ∈ natToDec n, 48 ≤ c ∧ c ≤ 57 := by
  induction n using Nat.strong_induction_on with
  | _ n ih =>
    intro c hc
    rw [natToDec] at hc
    by_cases h : n < 10
    · simp only [h, dif_pos, List.mem_singleton] at hc
      omega
    · simp only [h, dif_neg, not_false_iff, List.mem_append,
        List.mem_singleton] at hc
      rcases hc with hc | hc
      · exact ih (n / 10) (Nat.div_lt_self (by omega) (by omega)) c hc
      · omega

/-- Parsing inverts formatting for every value representable as an `i32`:
the parent recovers exactly the error code the child wrote. -/
theorem parseI32_formatInt (i : Int) (h1 : -(2 ^ 31) ≤ i) (h2 : i < 2 ^ 31) :
    parseI32 (formatInt i) = some i := by
  by_cases hneg : i < 0
  · rw [formatInt, if_pos hneg, parseI32]
    simp only [if_pos rfl]
    rw [parseDigits_natToDec]
    have habs : i.natAbs ≤ 2 ^ 31 := by omega
    rw [Option.some_bind', if_pos habs]
    exact congrArg some (by omega)
  · rw [formatInt, if_neg hneg]
    obtain ⟨c, rest, hcons⟩ : ∃ c rest, natToDec i.toNat = c :: rest := by
      cases h : natToDec i.toNat with
      | nil => exact absurd h (natToDec_ne_nil _)
      | cons c rest => exact ⟨c, rest, rfl⟩
    have hdig := natToDec_head_digit i.toNat c (by rw [hcons]; simp)
    rw [hcons, parseI32]
    rw [if_neg (by omega), if_neg (by omega), ← hcons, parseDigits_natToDec]
    have htn : i.toNat < 2 ^ 31 := by omega
    rw [Option.some_bind', if_pos htn]
    exact congrArg some (by omega)

theorem formatInt_ne_nil (i : Int) : formatInt i ≠ [] := by
  rw [formatInt]
  split
  · simp
  · exact natToDec_ne_nil _

theorem makeChildStreams_isOk (i o e : Redirection) (st : MCS)
    (h : i ≠ Redirection.merge) :
    ∃ v, makeChildStreams i o e st = .ok v := by
  cases i with
  | merge => exact absurd rfl h
  | none => cases o <;> cases e <;> exact ⟨_, rfl⟩
  | file id => cases o <;> cases e <;> exact ⟨_, rfl⟩
  | pipe => cases o <;> cases e <;> exact ⟨_, rfl⟩

/-- C1: on POSIX, when the forked child's `do_exec` fails with an OS error,
`start` returns a spawn error carrying exactly the error code the child wrote
in decimal to the CLOEXEC error pipe before `_exit(127)`; when exec succeeds
the pipe reads empty and `start` returns `Ok`, and an `Ok` return never
coexists with a child that exits 127 from the spawn protocol. -/
theorem start_reports_exec_failure
    (i o e : Redirection) (execFail : Option (Option Int)) (pid : Nat)
    (st : MCS) (hin : i ≠ Redirection.merge)
    (hrange : ∀ c, execFail = some (some c) → -(2 ^ 31) ≤ c ∧ c < 2 ^ 31) :
    (startPosix i o e execFail pid st).spawned = true ∧
    (∀ oe, execFail = some oe →
      (startPosix i o e execFail pid st).result
          = some (.error (.ioError (oe.getD (-1)))) ∧
      (startPosix i o e execFail pid st).childExit
          = some (.Exited 127)) ∧
    (execFail = Option.none →
      (startPosix i o e execFail pid st).result = some (.ok ()) ∧
      (startPosix i o e execFail pid st).childExit = Option.none) ∧
    ((startPosix i o e execFail pid st).result = some (.ok ()) →
      (startPosix i o e execFail pid st).childExit = Option.none) := by
  obtain ⟨v, hv⟩ := makeChildStreams_isOk i o e
    (setInh (Endpoint.pipeWrite st.next) false
      (setInh (Endpoint.pipeRead st.next) false { st with next := st.next + 1 }))
    hin
  cases execFail with
  | none =>
    simp [startPosix, hv]
  | some oe =>
    have hx : -(2 ^ 31) ≤ oe.getD (-1) ∧ oe.getD (-1) < 2 ^ 31 := by
      cases oe with
      | none => simp
      | some c => simpa using hrange c rfl
    have hparse := parseI32_formatInt _ hx.1 hx.2
    have hne := formatInt_ne_nil (oe.getD (-1))
    simp [startPosix, hv, hparse, hne]

/-- C1 witness: a concrete run where exec fails with `ENOENT` (code 2); the
construction reports the spawn error with code 2 and the child exits 127. -/
theorem start_reports_exec_failure_witness :
    Redirection.none ≠ Redirection.merge ∧
    (startPosix .none .none .none (some (some 2)) 42 {}).result
        = some (.error (.ioError 2)) ∧
    (startPosix .none .none .none (some (some 2)) 42 {}).childExit
        = some (.Exited 127) :=
  ⟨by decide,
   ((start_reports_exec_failure .none .none .none (some (some 2)) 42 {}
      (by decide) (by intro c hc; cases hc; constructor <;> decide)).2.1
      (some 2) rfl).1,
   ((start_reports_exec_failure .none .none .none (some (some 2)) 42 {}
      (by decide) (by intro c hc; cases hc; constructor <;> decide)).2.1
      (some 2) rfl).2⟩

/-- C4: `Redirection::Merge` for stdin is rejected with a `LogicError` whose
message is a short static string, before any child is forked: `start`
(hence `create`) returns the error and `spawned` is false. -/
theorem merge_stdin_logic_error
    (o e : Redirection) (execFail : Option (Option Int)) (pid : Nat)
    (st : MCS) :
    (startPosix .merge o e execFail pid st).result
        = some (.error (.logicError "Redirection::Merge not valid for stdin")) ∧
    (startPosix .merge o e execFail pid st).spawned = false :=
  ⟨rfl, rfl⟩

/-- C3 (amended): when the stdout spec is `Merge` and the stderr spec is not
also `Merge`, the child stdout slot receives a `try_clone` duplicate of the
child-side endpoint chosen for stderr, a fresh clone of the parent's standard
error being allocated when the stderr spec was `Inherit`; when the stderr
spec is `Merge` the symmetric resolution runs, and it is the one that wins
when both specs are `Merge` (the stdout slot then receives a fresh clone of
the parent's standard output, the stderr slot its duplicate).  Resolution
uses the final child endpoint of the other stream, i.e. happens after both
specs have been processed. -/
theorem merge_resolution
    (i o e : Redirection) (st : MCS)
    (ci co ce : Option Endpoint) (st' : MCS)
    (h : makeChildStreams i o e st = .ok ((ci, co, ce), st')) :
    (o = Redirection.merge → e ≠ Redirection.merge →
      ∃ cs, ce = some cs ∧ co = some (Endpoint.dupOf cs) ∧
        (e = Redirection.none → cs = Endpoint.stdClone StandardStream.Error)) ∧
    (e = Redirection.merge →
      ∃ cs, co = some cs ∧ ce = some (Endpoint.dupOf cs) ∧
        ((o = Redirection.none ∨ o = Redirection.merge) →
          cs = Endpoint.stdClone StandardStream.Output)) := by
  cases i <;> cases o <;> cases e <;>
    simp_all [makeChildStreams, mcsStdin, mcsStdout, mcsStderr,
      dupChildStream, preparePipe, prepareFile, setInh] <;>
    obtain ⟨⟨h1, h2, h3⟩, h4⟩ := h <;>
    first
    | exact ⟨_, h2.symm, h3.symm⟩
    | exact ⟨_, h3.symm, h2.symm⟩

/-- C3 counterexample: with stdout = `Merge` and stderr = `Merge`
simultaneously, the later recorded merge intent overwrites the earlier one,
so the child stdout slot receives a fresh clone of the parent's standard
output — not a duplicate of any endpoint chosen for stderr, refuting the
claim's unconditional stdout-Merge clause. -/
theorem merge_resolution_counterexample :
    makeChildStreams .none .merge .merge {} =
      .ok ((Option.none, some (Endpoint.stdClone StandardStream.Output),
            some (Endpoint.dupOf (Endpoint.stdClone StandardStream.Output))),
           {}) ∧
    (Endpoint.stdClone StandardStream.Output).isDup = false :=
  ⟨rfl, rfl⟩

/-- C3 witness: concrete run with stdout = `Merge`, stderr = `Inherit`. -/
theorem merge_resolution_witness :
    (Redirection.merge = Redirection.merge →
      Redirection.none ≠ Redirection.merge →
      ∃ cs, (some (Endpoint.stdClone StandardStream.Error) : Option Endpoint)
              = some cs ∧
        some (Endpoint.dupOf (Endpoint.stdClone StandardStream.Error))
              = some (Endpoint.dupOf cs) ∧
        (Redirection.none = Redirection.none →
          cs = Endpoint.stdClone StandardStream.Error)) ∧
    (Redirection.none = Redirection.merge →
      ∃ cs, (some (Endpoint.dupOf (Endpoint.stdClone StandardStream.Error)) :
              Option Endpoint) = some cs ∧
        some (Endpoint.stdClone StandardStream.Error)
              = some (Endpoint.dupOf cs) ∧
        ((Redirection.merge = Redirection.none ∨
          Redirection.merge = Redirection.merge) →
          cs = Endpoint.stdClone StandardStream.Output)) :=
  merge_resolution .none .merge .none {} Option.none
    (some (Endpoint.dupOf (Endpoint.stdClone StandardStream.Error)))
    (some (Endpoint.stdClone StandardStream.Error)) {} rfl

/-- C5: for every stream whose redirection spec is `Pipe`, the parent-retained
pipe end (the write end for stdin, the read end for stdout and stderr) is
recorded non-inheritable by `make_child_streams` — i.e. before `start` ever
forks or calls the spawn primitive — and the opposite end is the child-side
endpoint handed to the spawn call. -/
theorem pipe_parent_end_not_inheritable
    (i o e : Redirection) (st : MCS) (ci co ce : Option Endpoint) (st' : MCS)
    (h : makeChildStreams i o e st = .ok ((ci, co, ce), st')) :
    (i = Redirection.pipe →
      ∃ n, st'.pstdin = some (Endpoint.pipeWrite n) ∧
        inhStatus st'.inh (Endpoint.pipeWrite n) = false ∧
        ci = some (Endpoint.pipeRead n)) ∧
    (o = Redirection.pipe →
      ∃ n, st'.pstdout = some (Endpoint.pipeRead n) ∧
        inhStatus st'.inh (Endpoint.pipeRead n) = false ∧
        co = some (Endpoint.pipeWrite n)) ∧
    (e = Redirection.pipe →
      ∃ n, st'.pstderr = some (Endpoint.pipeRead n) ∧
        inhStatus st'.inh (Endpoint.pipeRead n) = false ∧
        ce = some (Endpoint.pipeWrite n)) := by
  cases i <;> cases o <;> cases e <;>
    simp_all [makeChildStreams, mcsStdin, mcsStdout, mcsStderr,
      dupChildStream, preparePipe, prepareFile, setInh] <;>
    (obtain ⟨⟨h1, h2, h3⟩, h4⟩ := h) <;> subst h4 <;>
    simp_all [inhStatus]

/-- C5 witness: all three streams piped from the initial state. -/
theorem pipe_parent_end_not_inheritable_witness :
    (Redirection.pipe = Redirection.pipe →
      ∃ n, (MCS.mk 3
          [(Endpoint.pipeRead 2, false), (Endpoint.pipeRead 1, false),
           (Endpoint.pipeWrite 0, false)]
          (some (Endpoint.pipeWrite 0)) (some (Endpoint.pipeRead 1))
          (some (Endpoint.pipeRead 2))).pstdin = some (Endpoint.pipeWrite n) ∧
        inhStatus (MCS.mk 3
          [(Endpoint.pipeRead 2, false), (Endpoint.pipeRead 1, false),
           (Endpoint.pipeWrite 0, false)]
          (some (Endpoint.pipeWrite 0)) (some (Endpoint.pipeRead 1))
          (some (Endpoint.pipeRead 2))).inh (Endpoint.pipeWrite n) = false ∧
        (some (Endpoint.pipeRead 0) : Option Endpoint)
            = some (Endpoint.pipeRead n)) ∧
    (Redirection.pipe = Redirection.pipe →
      ∃ n, (MCS.mk 3
          [(Endpoint.pipeRead 2, false), (Endpoint.pipeRead 1, false),
           (Endpoint.pipeWrite 0, false)]
          (some (Endpoint.pipeWrite 0)) (some (Endpoint.pipeRead 1))
          (some (Endpoint.pipeRead 2))).pstdout = some (Endpoint.pipeRead n) ∧
        inhStatus (MCS.mk 3
          [(Endpoint.pipeRead 2, false), (Endpoint.pipeRead 1, false),
           (Endpoint.pipeWrite 0, false)]
          (some (Endpoint.pipeWrite 0)) (some (Endpoint.pipeRead 1))
          (some (Endpoint.pipeRead 2))).inh (Endpoint.pipeRead n) = false ∧
        (some (Endpoint.pipeWrite 1) : Option Endpoint)
            = some (Endpoint.pipeWrite n)) ∧
    (Redirection.pipe = Redirection.pipe →
      ∃ n, (MCS.mk 3
          [(Endpoint.pipeRead 2, false), (Endpoint.pipeRead 1, false),
           (Endpoint.pipeWrite 0, false)]
          (some (Endpoint.pipeWrite 0)) (some (Endpoint.pipeRead 1))
          (some (Endpoint.pipeRead 2))).pstderr = some (Endpoint.pipeRead n) ∧
        inhStatus (MCS.mk 3
          [(Endpoint.pipeRead 2, false), (Endpoint.pipeRead 1, false),
           (Endpoint.pipeWrite 0, false)]
          (some (Endpoint.pipeWrite 0)) (some (Endpoint.pipeRead 1))
          (some (Endpoint.pipeRead 2))).inh (Endpoint.pipeRead n) = false ∧
        (some (Endpoint.pipeWrite 2) : Option Endpoint)
            = some (Endpoint.pipeWrite n)) :=
  pipe_parent_end_not_inheritable .pipe .pipe .pipe {}
    (some (Endpoint.pipeRead 0)) (some (Endpoint.pipeWrite 1))
    (some (Endpoint.pipeWrite 2))
    (MCS.mk 3
      [(Endpoint.pipeRead 2, false), (Endpoint.pipeRead 1, false),
       (Endpoint.pipeWrite 0, false)]
      (some (Endpoint.pipeWrite 0)) (some (Endpoint.pipeRead 1))
      (some (Endpoint.pipeRead 2))) rfl

/-! ### Lifecycle state machines

POSIX lifecycle state of a handle is the pair of `Option` fields `_pid` and
`exit_status`; Windows additionally holds the opaque process handle in
`ext_data.handle`.  OS calls (`posix::waitpid`, `WaitForSingleObject`,
`GetExitCodeProcess`, `TerminateProcess`) are oracles; errors carry no
payload. -/

structure PState where
  pid : Option Nat
  exit_status : Option ExitStatus
deriving DecidableEq, Repr

/-- Translation of the POSIX `PopenOsImpl::waitpid`: a no-op when `_pid` is
cleared; otherwise the oracle answers `(pid_out, status)` (or fails), and on
`pid_out == pid` the pid is cleared and the exit status recorded in the same
step.  Returns the `IoResult` together with the updated handle state. -/
def waitpidM (s : PState) (resp : Except Unit (Nat × ExitStatus)) :
    Except Unit Unit × PState :=
  match s.pid with
  | some pid =>
    match resp with
    | .error e => (.error e, s)
    | .ok (pid_out, es) =>
      if pid_out = pid then
        (.ok (), { pid := Option.none, exit_status := some es })
      else (.ok (), s)
  | Option.none => (.ok (), s)

/-- Translation of the POSIX `wait` loop `while let None = self.exit_status
{ self.waitpid(0)?; }`, with explicit fuel; `Option.none` means the loop has
not returned within the given fuel (for every fuel: it never returns). -/
def waitLoop (fuel : Nat) (s : PState)
    (f : Nat → Except Unit (Nat × ExitStatus)) :
    Option (Except Unit ExitStatus × PState) :=
  match s.exit_status with
  | some es => some (.ok es, s)
  | Option.none =>
    match fuel with
    | 0 => Option.none
    | fuel' + 1 =>
      match waitpidM s (f 0) with
      | (.error e, s') => some (.error e, s')
      | (.ok _, s') => waitLoop fuel' s' (fun k => f (k + 1))

/-- Translation of the POSIX `poll`: one `waitpid(WNOHANG)`, returning the
recorded exit status on `Ok` and `None` on error. -/
def pollM (s : PState) (resp : Except Unit (Nat × ExitStatus)) :
    Option ExitStatus × PState :=
  match waitpidM s resp with
  | (.ok _, s') => (s'.exit_status, s')
  | (.error _, s') => (Option.none, s')

/-- Translation of `Popen::detach`: clears `_pid` only. -/
def detachM (s : PState) : PState := { s with pid := Option.none }

/-- Translation of the POSIX `terminate`/`kill` (`send_signal`): delivers a
signal when a pid is present but never mutates the handle state. -/
def terminateM (s : PState) : PState := s

/-- Translation of `Drop for Popen`: when no exit status has been observed,
invoke `wait` and discard its result (`self.wait().ok()`); `Option.none`
means the drop has not finished within the given fuel. -/
def dropM (fuel : Nat) (s : PState)
    (f : Nat → Except Unit (Nat × ExitStatus)) : Option PState :=
  match s.exit_status with
  | Option.none =>
    match waitLoop fuel s f with
    | Option.none => Option.none
    | some (_, s') => some s'
  | some _ => some s

structure WState where
  pid : Option Nat
  exit_status : Option ExitStatus
  handle : Option Nat
deriving DecidableEq, Repr

inductive WaitEvent where
  | OBJECT_0
  | ABANDONED
  | TIMEOUT
deriving DecidableEq, Repr

/-- Translation of the Windows `PopenOsImpl::wait_handle`: a no-op when the
handle is absent; on `OBJECT_0` the pid is cleared and the handle taken, then
`GetExitCodeProcess` is consulted and the exit status recorded. -/
def waitHandleM (s : WState) (ev : Except Unit WaitEvent)
    (code : Except Unit Nat) :
    Except Unit (Option ExitStatus) × WState :=
  match s.handle with
  | Option.none => (.ok s.exit_status, s)
  | some _ =>
    match ev with
    | .error e => (.error e, s)
    | .ok WaitEvent.OBJECT_0 =>
      let s1 : WState := { s with pid := Option.none, handle := Option.none }
      match code with
      | .error e => (.error e, s1)
      | .ok c =>
        let s2 : WState := { s1 with exit_status := some (.Exited c) }
        (.ok s2.exit_status, s2)
    | .ok _ => (.ok s.exit_status, s)

def STILL_ACTIVE : Nat := 259

/-- Translation of the Windows `terminate` (also `kill`): when
`TerminateProcess` fails, `termRes = some accessDenied`; an
`ERROR_ACCESS_DENIED` failure is recovered by fetching the exit code, and if
the process has in fact exited the status is recorded while pid and handle
are cleared in the same step. -/
def terminateW (s : WState) (termRes : Option Bool)
    (rcRes : Except Unit Nat) : Except Unit Unit × WState :=
  match s.handle with
  | Option.none => (.ok (), s)
  | some _ =>
    match termRes with
    | Option.none => (.ok (), s)
    | some accessDenied =>
      if accessDenied = false then (.error (), s)
      else
        match rcRes with
        | .error e => (.error e, s)
        | .ok rc =>
          if rc = STILL_ACTIVE then (.error (), s)
          else
            (.ok (), { s with exit_status := some (.Exited rc),
                              pid := Option.none, handle := Option.none })

/-- Translation of `Popen::detach` acting on the Windows state. -/
def detachW (s : WState) : WState := { s with pid := Option.none }

/-- Invariant 1 of the spec's data model on POSIX: once the exit status is
set the pid is cleared. -/
def PInv (s : PState) : Prop := s.exit_status.isSome → s.pid = Option.none

/-- The Windows counterpart, strengthened with the process handle (which is
what the Windows operations actually dispatch on). -/
def WInv (s : WState) : Prop :=
  s.exit_status.isSome → s.pid = Option.none ∧ s.handle = Option.none

/-- Preservation shape for the terminal-status field: once set, later values
are the very same. -/
def ExitPreserved (before after : Option ExitStatus) : Prop :=
  before.isSome → after = before

/-- Named no-progress oracle used by the concrete witnesses. -/
def constErr : Nat → Except Unit (Nat × ExitStatus) := fun _ => .error ()

theorem waitpidM_pinv (s : PState) (resp : Except Unit (Nat × ExitStatus))
    (hp : PInv s) : PInv (waitpidM s resp).2 := by
  cases hpid : s.pid with
  | none => simp only [waitpidM, hpid]; exact hp
  | some pid =>
    cases resp with
    | error e => simp only [waitpidM, hpid]; exact hp
    | ok pr =>
      obtain ⟨po, es⟩ := pr
      by_cases hpo : po = pid
      · simp [waitpidM, hpid, hpo, PInv]
      · simp only [waitpidM, hpid, hpo, if_neg hpo]; exact hp

theorem waitpidM_unchanged (s : PState) (resp : Except Unit (Nat × ExitStatus))
    (hp : PInv s) (hes : s.exit_status.isSome) : (waitpidM s resp).2 = s := by
  have hpid := hp hes
  simp [waitpidM, hpid]

theorem pollM_state (s : PState) (resp : Except Unit (Nat × ExitStatus)) :
    (pollM s resp).2 = (waitpidM s resp).2 := by
  unfold pollM
  rcases hw : waitpidM s resp with ⟨res, s1⟩
  cases res <;> simp

theorem waitLoop_inv (fuel : Nat) (s : PState)
    (f : Nat → Except Unit (Nat × ExitStatus))
    (r : Except Unit ExitStatus) (s' : PState) (hp : PInv s)
    (h : waitLoop fuel s f = some (r, s')) :
    PInv s' ∧ ExitPreserved s.exit_status s'.exit_status := by
  induction fuel generalizing s f r s' with
  | zero =>
    cases hes : s.exit_status with
    | none => rw [waitLoop, hes] at h; exact Option.noConfusion h
    | some es =>
      rw [waitLoop, hes] at h
      injection h with h1
      cases h1
      exact ⟨hp, fun _ => hes⟩
  | succ n ih =>
    cases hes : s.exit_status with
    | some es =>
      rw [waitLoop, hes] at h
      injection h with h1
      cases h1
      exact ⟨hp, fun _ => hes⟩
    | none =>
      rw [waitLoop, hes] at h
      rcases hw : waitpidM s (f 0) with ⟨res, s1⟩
      rw [hw] at h
      have hp1 : PInv s1 := by
        have hx := waitpidM_pinv s (f 0) hp
        rw [hw] at hx
        exact hx
      cases res with
      | error e =>
        injection h with h1
        cases h1
        exact ⟨hp1, by simp [ExitPreserved]⟩
      | ok u =>
        have hrec := ih s1 (fun k => f (k + 1)) r s' hp1 h
        exact ⟨hrec.1, by simp [ExitPreserved]⟩

theorem waitHandleM_winv (ws : WState) (ev : Except Unit WaitEvent)
    (code : Except Unit Nat) (hw : WInv ws) :
    WInv (waitHandleM ws ev code).2 := by
  cases hh : ws.handle with
  | none => simp only [waitHandleM, hh]; exact hw
  | some h0 =>
    cases ev with
    | error e => simp only [waitHandleM, hh]; exact hw
    | ok w =>
      cases w with
      | OBJECT_0 =>
        cases code with
        | error e => simp [waitHandleM, hh, WInv]
        | ok c => simp [waitHandleM, hh, WInv]
      | ABANDONED => simp only [waitHandleM, hh]; exact hw
      | TIMEOUT => simp only [waitHandleM, hh]; exact hw

theorem waitHandleM_unchanged (ws : WState) (ev : Except Unit WaitEvent)
    (code : Except Unit Nat) (hw : WInv ws) (hes : ws.exit_status.isSome) :
    (waitHandleM ws ev code).2 = ws := by
  have hh := (hw hes).2
  simp [waitHandleM, hh]

theorem terminateW_winv (ws : WState) (termRes : Option Bool)
    (rcRes : Except Unit Nat) (hw : WInv ws) :
    WInv (terminateW ws termRes rcRes).2 := by
  cases hh : ws.handle with
  | none => simp only [terminateW, hh]; exact hw
  | some h0 =>
    cases termRes with
    | none => simp only [terminateW, hh]; exact hw
    | some ad =>
      cases ad with
      | false => simp only [terminateW, hh]; simp; exact hw
      | true =>
        cases rcRes with
        | error e => simp only [terminateW, hh]; simp; exact hw
        | ok rc =>
          by_cases hrc : rc = STILL_ACTIVE
          · simp only [terminateW, hh, hrc]; simp; exact hw
          · simp [terminateW, hh, hrc, WInv]

theorem terminateW_unchanged (ws : WState) (termRes : Option Bool)
    (rcRes : Except Unit Nat) (hw : WInv ws) (hes : ws.exit_status.isSome) :
    (terminateW ws termRes rcRes).2 = ws := by
  have hh := (hw hes).2
  simp [terminateW, hh]

/-- C6: every lifecycle operation — POSIX `waitpid` (the sole state mutator
behind `wait`, `wait_timeout` and `poll`), the `wait` loop itself, `poll`,
`detach`, `terminate`/`kill` (POSIX `send_signal` leaves the handle state
untouched), and the Windows `wait_handle` (behind `wait`, `wait_timeout`,
`poll`), `terminate`/`kill` and `detach` — preserves the invariant that a set
`exit_status` comes with a cleared pid (clearing happens in the same step that
sets the status), and no operation ever replaces a set `exit_status` with a
different value. -/
theorem lifecycle_invariant
    (ps : PState) (resp : Except Unit (Nat × ExitStatus))
    (fuel : Nat) (f : Nat → Except Unit (Nat × ExitStatus))
    (r : Except Unit ExitStatus) (s' : PState)
    (ws : WState) (ev : Except Unit WaitEvent) (code : Except Unit Nat)
    (termRes : Option Bool) (rcRes : Except Unit Nat)
    (hp : PInv ps) (hw : WInv ws)
    (hloop : waitLoop fuel ps f = some (r, s')) :
    (PInv (waitpidM ps resp).2 ∧
      ExitPreserved ps.exit_status (waitpidM ps resp).2.exit_status) ∧
    (PInv (pollM ps resp).2 ∧
      ExitPreserved ps.exit_status (pollM ps resp).2.exit_status) ∧
    (PInv s' ∧ ExitPreserved ps.exit_status s'.exit_status) ∧
    (PInv (detachM ps) ∧
      ExitPreserved ps.exit_status (detachM ps).exit_status) ∧
    (PInv (terminateM ps) ∧
      ExitPreserved ps.exit_status (terminateM ps).exit_status) ∧
    (WInv (waitHandleM ws ev code).2 ∧
      ExitPreserved ws.exit_status (waitHandleM ws ev code).2.exit_status) ∧
    (WInv (terminateW ws termRes rcRes).2 ∧
      ExitPreserved ws.exit_status (terminateW ws termRes rcRes).2.exit_status) ∧
    (WInv (detachW ws) ∧
      ExitPreserved ws.exit_status (detachW ws).exit_status) := by
  refine ⟨⟨waitpidM_pinv ps resp hp, fun hes => ?_⟩,
          ⟨?_, fun hes => ?_⟩,
          waitLoop_inv fuel ps f r s' hp hloop,
          ⟨fun hes => rfl, fun hes => rfl⟩,
          ⟨hp, fun hes => rfl⟩,
          ⟨waitHandleM_winv ws ev code hw, fun hes => ?_⟩,
          ⟨terminateW_winv ws termRes rcRes hw, fun hes => ?_⟩,
          ⟨fun hes => ⟨rfl, (hw hes).2⟩, fun hes => rfl⟩⟩
  · rw [waitpidM_unchanged ps resp hp hes]
  · rw [PInv, pollM_state]; exact waitpidM_pinv ps resp hp
  · rw [pollM_state, waitpidM_unchanged ps resp hp hes]
  · rw [waitHandleM_unchanged ws ev code hw hes]
  · rw [terminateW_unchanged ws termRes rcRes hw hes]

/-- C6 witness: projection of the invariant at a fully reaped POSIX handle
and Windows handle with concrete failing oracles. -/
theorem lifecycle_invariant_witness :
    PInv (waitpidM ⟨Option.none, some (.Exited 0)⟩ (.error ())).2 ∧
    WInv (terminateW ⟨Option.none, some (.Exited 0), Option.none⟩
            Option.none (.error ())).2 :=
  have h := lifecycle_invariant ⟨Option.none, some (.Exited 0)⟩ (.error ())
    1 constErr (.ok (.Exited 0)) ⟨Option.none, some (.Exited 0)⟩
    ⟨Option.none, some (.Exited 0), Option.none⟩ (.error ()) (.error ())
    Option.none (.error ()) (fun _ => rfl) (fun _ => ⟨rfl, rfl⟩) rfl
  ⟨h.1.1, h.2.2.2.2.2.2.1.1⟩

/-- C2: once the handle's termination has been observed (`exit_status` set,
and hence — by the invariant of C6 — the pid cleared), every further `wait`
returns the same `ExitStatus` without error and leaves the state unchanged,
for every fuel and every oracle, and so does every further `poll`. -/
theorem poll_wait_idempotent (s : PState) (es : ExitStatus)
    (hes : s.exit_status = some es) (hpid : s.pid = Option.none) :
    (∀ fuel f, waitLoop fuel s f = some (.ok es, s)) ∧
    (∀ resp, pollM s resp = (some es, s)) := by
  constructor
  · intro fuel f
    cases fuel <;> rw [waitLoop, hes]
  · intro resp
    simp [pollM, waitpidM, hpid, hes]

/-- C2 witness: a reaped handle with exit status `Exited 0` and an oracle
that would fail if it were ever consulted. -/
theorem poll_wait_idempotent_witness :
    waitLoop 3 ⟨Option.none, some (.Exited 0)⟩ constErr
        = some (.ok (ExitStatus.Exited 0), ⟨Option.none, some (.Exited 0)⟩) ∧
    pollM ⟨Option.none, some (.Exited 0)⟩ (.error ())
        = (some (ExitStatus.Exited 0), ⟨Option.none, some (.Exited 0)⟩) :=
  ⟨(poll_wait_idempotent ⟨Option.none, some (.Exited 0)⟩ (.Exited 0)
      rfl rfl).1 3 constErr,
   (poll_wait_idempotent ⟨Option.none, some (.Exited 0)⟩ (.Exited 0)
      rfl rfl).2 (.error ())⟩

theorem waitLoop_stuck (fuel : Nat)
    (f : Nat → Except Unit (Nat × ExitStatus)) :
    waitLoop fuel ⟨Option.none, Option.none⟩ f = Option.none := by
  induction fuel generalizing f with
  | zero => rfl
  | succ n ih =>
    rw [waitLoop]
    exact ih _

/-- C7 (refuting the claim; the code contradicts its own comment "To avoid
the wait, call detach()"): after `detach` clears the pid of a handle whose
exit status has not been observed, `drop` still sees `exit_status == None`
and invokes `wait`; `wait` loops on `waitpid`, but `waitpid` with a cleared
pid is a no-op returning `Ok`, so `exit_status` is never set and the drop
never terminates (`Option.none` for every fuel). -/
theorem detached_drop_never_terminates (pid : Nat) (fuel : Nat)
    (f : Nat → Except Unit (Nat × ExitStatus)) :
    dropM fuel (detachM ⟨some pid, Option.none⟩) f = Option.none := by
  have h := waitLoop_stuck fuel f
  simp [dropM, detachM, h]

/-! ### POSIX `wait_timeout`: exponential back-off polling loop

Clock reads and the per-iteration `waitpid(WNOHANG)` results are oracles
(`ts k` is the `Instant::now()` of iteration `k`, `polls k` the exit status
visible to iteration `k`); durations are nanoseconds.  The returned list is
the sequence of durations passed to `thread::sleep`. -/

/-- Duration::from_millis(100), in nanoseconds. -/
def capNs : Nat := 100000000

/-- Translation of the `loop` body of the POSIX `wait_timeout`: poll, return
the status if terminated, return "still running" when `now >= deadline`,
otherwise double the delay (capped by the remaining budget and by 100 ms),
sleep, and iterate.  `Option.none` means fuel ran out. -/
def wtLoop (fuel : Nat) (delay : Nat) (deadline : Nat) (k : Nat)
    (polls : Nat → Option ExitStatus) (ts : Nat → Nat) :
    Option (Option ExitStatus × List Nat) :=
  match fuel with
  | 0 => Option.none
  | fuel' + 1 =>
    match polls k with
    | some es => some (some es, [])
    | Option.none =>
      let now := ts k
      if deadline ≤ now then some (Option.none, [])
      else
        let remaining := deadline - now
        let delay' := min (delay * 2) (min remaining capNs)
        match wtLoop fuel' delay' deadline (k + 1) polls ts with
        | Option.none => Option.none
        | some (r, log) => some (r, delay' :: log)

/-- Translation of the POSIX `wait_timeout`: an already-recorded exit status
is returned at once; otherwise the deadline `now + dur` is computed once at
entry and the polling loop starts with the 0.5 ms delay state. -/
def waitTimeoutM (fuel : Nat) (es0 : Option ExitStatus) (dur : Nat)
    (t0 : Nat) (polls : Nat → Option ExitStatus) (ts : Nat → Nat) :
    Option (Option ExitStatus × List Nat) :=
  match es0 with
  | some es => some (some es, [])
  | Option.none => wtLoop fuel 500000 (t0 + dur) 0 polls ts

/-- The sleep sequence the spec describes: starting from the given delay
state, each slept duration is the double of the previous state, capped at
100 ms and at the time remaining to the (fixed) deadline, and sleeping only
happens strictly before the deadline. -/
def DelayChain (deadline : Nat) (ts : Nat → Nat) :
    Nat → Nat → List Nat → Prop
  | _, _, [] => True
  | delay, k, d :: rest =>
    ts k < deadline ∧
    d = min (delay * 2) (min (deadline - ts k) capNs) ∧
    DelayChain deadline ts d (k + 1) rest

theorem wtLoop_chain (fuel delay deadline k : Nat)
    (polls : Nat → Option ExitStatus) (ts : Nat → Nat)
    (r : Option ExitStatus) (log : List Nat)
    (h : wtLoop fuel delay deadline k polls ts = some (r, log)) :
    DelayChain deadline ts delay k log ∧
    (r = Option.none → deadline ≤ ts (k + log.length)) := by
  induction fuel generalizing delay k log with
  | zero => exact Option.noConfusion h
  | succ n ih =>
    rw [wtLoop] at h
    cases hp : polls k with
    | some es =>
      rw [hp] at h
      injection h with h1
      cases h1
      exact ⟨trivial, by intro hr; exact absurd hr (by simp)⟩
    | none =>
      rw [hp] at h
      by_cases hd : deadline ≤ ts k
      · rw [if_pos hd] at h
        injection h with h1
        cases h1
        exact ⟨trivial, fun _ => by simpa using hd⟩
      · rw [if_neg hd] at h
        simp only at h
        rcases hrec : wtLoop n (min (delay * 2) (min (deadline - ts k) capNs))
            deadline (k + 1) polls ts with _ | ⟨r1, log1⟩
        · rw [hrec] at h; exact Option.noConfusion h
        · rw [hrec] at h
          injection h with h1
          cases h1
          have hih := ih _ _ _ hrec
          refine ⟨⟨by omega, rfl, hih.1⟩, ?_⟩
          intro hr
          have := hih.2 hr
          simpa [Nat.add_assoc, Nat.add_comm 1] using this

/-- C8: on POSIX, `wait_timeout` computes the deadline `entry + dur` once;
every run of the loop produces a sleep sequence forming the spec's back-off
chain from the 0.5 ms initial delay state (each slept duration doubles the
previous one, capped at 100 ms and at the remaining budget, and only while
`now < deadline`), a "still running" return happens exactly when the clock
has reached the deadline, and a zero duration degenerates to a single
non-blocking poll with no sleep at all. -/
theorem wait_timeout_backoff (dur t0 fuel : Nat)
    (polls : Nat → Option ExitStatus) (ts : Nat → Nat) :
    (∀ r log, waitTimeoutM fuel Option.none dur t0 polls ts = some (r, log) →
      DelayChain (t0 + dur) ts 500000 0 log ∧
      (r = Option.none → t0 + dur ≤ ts log.length)) ∧
    (dur = 0 → polls 0 = Option.none → t0 ≤ ts 0 → 1 ≤ fuel →
      waitTimeoutM fuel Option.none 0 t0 polls ts = some (Option.none, [])) := by
  constructor
  · intro r log h
    have := wtLoop_chain fuel 500000 (t0 + dur) 0 polls ts r log h
    simpa using this
  · intro hdur hpoll ht hfuel
    obtain ⟨n, rfl⟩ : ∃ n, fuel = n + 1 := ⟨fuel - 1, by omega⟩
    rw [waitTimeoutM, wtLoop, hpoll, if_pos (by omega)]

/-- Named oracles for the concrete witness below: a child that never reports
and a clock frozen at zero. -/
def noPoll : Nat → Option ExitStatus := fun _ => Option.none

def zeroClock : Nat → Nat := fun _ => 0

/-- C8 witness: zero duration with a constant clock and a child that never
reports: exactly one poll, no sleeps, and the (empty) chain holds. -/
theorem wait_timeout_backoff_witness :
    waitTimeoutM 1 Option.none 0 0 noPoll zeroClock
        = some (Option.none, []) ∧
    DelayChain 0 zeroClock 500000 0 [] :=
  have h := wait_timeout_backoff 0 0 1 noPoll zeroClock
  ⟨h.2 rfl rfl (Nat.le_refl 0) (Nat.le_refl 1),
   (h.1 Option.none [] (h.2 rfl rfl (Nat.le_refl 0) (Nat.le_refl 1))).1⟩

/-! ### `communicate_bytes`

Presence of the three parent-side endpoints is a triple of booleans (an
endpoint is present iff the stream was piped); the bytes each piped stream
would transfer, and the success of each transfer, are oracles.  The outer
`Option` models a panic: `Option.none` is an assertion/`expect` failure. -/

/-- Translation of `Popen::communicate_bytes`.  The three single-stream arms
run on the calling thread: the stdin-only arm calls
`input_data.expect(...)` (panicking on `None`), the stdout-only and
stderr-only arms `assert!(input_data.is_none())`.  Every other combination
takes the scoped-threads arm, where the input is consulted — and its absence
panics — only when stdin is present, and where a present input with absent
stdin is silently ignored.  Worker errors surface in the order stdin write,
stdout join, stderr join. -/
def communicateBytes (sin sout serr : Bool) (input : Option (List Nat))
    (outRes errRes : Except Unit (List Nat)) (inRes : Except Unit Unit) :
    Option (Except Unit (Option (List Nat) × Option (List Nat))) :=
  match sin, sout, serr with
  | true, false, false =>
    match input with
    | Option.none => Option.none
    | some _ =>
      match inRes with
      | .error e => some (.error e)
      | .ok _ => some (.ok (Option.none, Option.none))
  | false, true, false =>
    if input.isSome then Option.none
    else
      match outRes with
      | .error e => some (.error e)
      | .ok out => some (.ok (some out, Option.none))
  | false, false, true =>
    if input.isSome then Option.none
    else
      match errRes with
      | .error e => some (.error e)
      | .ok err => some (.ok (Option.none, some err))
  | _, _, _ =>
    if sin ∧ input.isNone then Option.none
    else
      match (if sin then inRes else .ok ()) with
      | .error e => some (.error e)
      | .ok _ =>
        match (if sout then outRes.map some else .ok Option.none) with
        | .error e => some (.error e)
        | .ok o =>
          match (if serr then errRes.map some else .ok Option.none) with
          | .error e => some (.error e)
          | .ok er => some (.ok (o, er))

/-- C9 counterexample: stdin not piped, both outputs piped, and a `Some`
input: the scoped-threads arm never consults the input, so no assertion
fires — the call succeeds, refuting the claim that `Some` input with
non-piped stdin always panics. -/
theorem communicate_assertions_counterexample :
    communicateBytes false true true (some [104]) (.ok [1]) (.ok [2]) (.ok ())
        = some (.ok (some [1], some [2])) ∧
    communicateBytes false true true (some [104]) (.ok [1]) (.ok [2]) (.ok ())
        ≠ Option.none :=
  ⟨rfl, fun h => Option.noConfusion h⟩

/-- C9 (amended): a piped stdin with `None` input panics in every
configuration; a non-piped stdin with `Some` input panics exactly in the two
single-output fast paths (exactly one of stdout/stderr piped) and is ignored
without panic otherwise; and under the precondition (input present iff stdin
piped) a run whose transfers all succeed returns captured bytes for exactly
the piped output streams. -/
theorem communicate_assertions (sin sout serr : Bool)
    (input : Option (List Nat)) (outRes errRes : Except Unit (List Nat))
    (inRes : Except Unit Unit) :
    (sin = true → input = Option.none →
      communicateBytes sin sout serr input outRes errRes inRes
        = Option.none) ∧
    (sin = false → input.isSome → sout ≠ serr →
      communicateBytes sin sout serr input outRes errRes inRes
        = Option.none) ∧
    (sin = false → input.isSome → sout = serr →
      communicateBytes sin sout serr input outRes errRes inRes
        ≠ Option.none) ∧
    ((sin = true ↔ input.isSome) →
      ∀ out err, outRes = .ok out → errRes = .ok err → inRes = .ok () →
        communicateBytes sin sout serr input outRes errRes inRes
          = some (.ok ((if sout then some out else Option.none),
                       (if serr then some err else Option.none)))) := by
  refine ⟨?_, ?_, ?_, ?_⟩
  · rintro rfl rfl
    cases sout <;> cases serr <;> simp [communicateBytes]
  · rintro rfl hin hne
    cases sout <;> cases serr
    · exact absurd rfl hne
    · simp [communicateBytes, hin]
    · simp [communicateBytes, hin]
    · exact absurd rfl hne
  · rintro rfl hin heq
    cases sout <;> cases serr
    · simp [communicateBytes]
    · exact absurd heq (by simp)
    · exact absurd heq (by simp)
    · cases outRes <;> cases errRes <;> simp [communicateBytes, Except.map]
  · rintro hiff out err rfl rfl rfl
    cases sin <;> cases sout <;> cases serr <;> cases input <;>
      simp_all [communicateBytes, Except.map]

/-- C9 witness: all three streams piped with input provided; the transfers
succeed and both outputs are captured. -/
theorem communicate_assertions_witness :
    communicateBytes true true true (some [104]) (.ok [111]) (.ok [101])
        (.ok ())
      = some (.ok (some [111], some [101])) := by
  have h := (communicate_assertions true true true (some [104]) (.ok [111])
    (.ok [101]) (.ok ())).2.2.2 (by simp) [111] [101] rfl rfl rfl
  simpa using h

/-! ### Windows command-line assembly (`win32.rs` / `popen.rs`)

Arguments are lists of UTF-16 code units (`Vec<u16>`), modelled as lists of
naturals.  Byte values: 9 tab, 10 newline, 11 vertical tab, 32 space,
34 double quote, 92 backslash. -/

/-- The characters that force quoting in `append_quoted`. -/
def special (c : Nat) : Bool :=
  c == 32 || c == 9 || c == 10 || c == 11 || c == 34

/-- Translation of the quoting loop of `append_quoted`: the index scan that
first counts a run of backslashes and then dispatches on the following
character is rendered as a left-to-right scan carrying the count `nbs` of
backslashes read since the last non-backslash: at the end of the argument
the run is doubled; before a literal quote the run is doubled plus one
escaping backslash; before any other character the run is emitted as is. -/
def quoteScan : List Nat → Nat → List Nat
  | [], nbs => List.replicate (2 * nbs) 92
  | c :: rest, nbs =>
    if c == 92 then quoteScan rest (nbs + 1)
    else if c == 34 then
      List.replicate (2 * nbs + 1) 92 ++ c :: quoteScan rest 0
    else
      List.replicate nbs 92 ++ c :: quoteScan rest 0

/-- Translation of `append_quoted`: a non-empty argument free of
whitespace/quote/tab/newline/VT is appended verbatim; anything else is
wrapped in double quotes around the escaped body. -/
def append_quoted (arg : List Nat) : List Nat :=
  if arg ≠ [] ∧ arg.all (fun c => !special c) then arg
  else 34 :: (quoteScan arg 0 ++ [34])

def ERROR_BAD_PATHNAME : Nat := 161

/-- Translation of `assemble_cmdline`: arguments are processed in order, an
argument with an embedded NUL aborts with `ERROR_BAD_PATHNAME`, and each
quoted argument is followed by one space. -/
def assemble_cmdline : List (List Nat) → Except Nat (List Nat)
  | [] => .ok []
  | arg :: rest =>
    if arg.any (fun c => c == 0) then .error ERROR_BAD_PATHNAME
    else
      match assemble_cmdline rest with
      | .error e => .error e
      | .ok r => .ok (append_quoted arg ++ 32 :: r)

/-- The claim's reading of the assembly, for comparison: the quoting rules of
the claim (verbatim for every argument — empty included — lacking the special
characters, the same escaping otherwise) with the arguments joined by single
spaces, i.e. no trailing space. -/
def claimQuote (arg : List Nat) : List Nat :=
  if arg.all (fun c => !special c) then arg
  else 34 :: (quoteScan arg 0 ++ [34])

/-- The claim's join: `NUL`-free arguments quoted per the claim and
intercalated with single spaces. -/
def claimAssemble (argv : List (List Nat)) : Except Nat (List Nat) :=
  if argv.any (fun a => a.any (fun c => c == 0)) then .error ERROR_BAD_PATHNAME
  else .ok (List.intercalate [32] (argv.map claimQuote))

/-- C10 counterexample: the code appends a space after every argument, the
last included, and quotes the empty argument, so already a lone `"a"` (and a
lone empty argument) assemble differently from the claim's
joined-by-single-spaces reading. -/
theorem assemble_cmdline_counterexample :
    assemble_cmdline [[97]] = .ok [97, 32] ∧
    claimAssemble [[97]] = .ok [97] ∧
    assemble_cmdline [[]] = .ok [34, 34, 32] ∧
    claimAssemble [[]] = .ok [] ∧
    assemble_cmdline [[97]] ≠ claimAssemble [[97]] ∧
    assemble_cmdline [[]] ≠ claimAssemble [[]] := by
  refine ⟨rfl,
    by simp [claimAssemble, claimQuote, special, List.intercalate,
      List.intersperse],
    rfl,
    by simp [claimAssemble, claimQuote, special, List.intercalate,
      List.intersperse],
    ?_, ?_⟩
  · rw [show assemble_cmdline [[97]] = .ok [97, 32] from rfl]
    simp [claimAssemble, claimQuote, special, List.intercalate,
      List.intersperse]
  · rw [show assemble_cmdline [[]] = .ok [34, 34, 32] from rfl]
    simp [claimAssemble, claimQuote, special, List.intercalate,
      List.intersperse]

theorem quoteScan_replicate (n : Nat) (t : List Nat) (k : Nat) :
    quoteScan (List.replicate n 92 ++ t) k = quoteScan t (k + n) := by
  induction n generalizing k with
  | zero => simp
  | succ m ih =>
    rw [List.replicate_succ]
    simp only [List.cons_append, quoteScan]
    rw [if_pos (by decide)]
    rw [show (List.replicate m 92).append t = List.replicate m 92 ++ t from rfl,
        ih]
    congr 1
    omega

theorem assemble_cmdline_nul (argv : List (List Nat))
    (h : ∃ a ∈ argv, 0 ∈ a) :
    assemble_cmdline argv = .error ERROR_BAD_PATHNAME := by
  induction argv with
  | nil => simp at h
  | cons a t ih =>
    rcases h with ⟨b, hb, h0⟩
    rcases List.mem_cons.mp hb with rfl | hb'
    · have ha : b.any (fun c => c == 0) = true := by
        simp only [List.any_eq_true, beq_iff_eq]
        exact ⟨0, h0, rfl⟩
      simp [assemble_cmdline, ha]
    · by_cases ha : a.any (fun c => c == 0)
      · simp [assemble_cmdline, ha]
      · have ht := ih ⟨b, hb', h0⟩
        simp [assemble_cmdline, ha, ht]

theorem intercalate_cons_sp (x y : List Nat) (ys : List (List Nat)) :
    List.intercalate [32] (x :: y :: ys)
      = x ++ 32 :: List.intercalate [32] (y :: ys) := by
  simp [List.intercalate, List.intersperse]

theorem assemble_cmdline_join (argv : List (List Nat))
    (h : ∀ a ∈ argv, 0 ∉ a) (hne : argv ≠ []) :
    assemble_cmdline argv
      = .ok (List.intercalate [32] (argv.map append_quoted) ++ [32]) := by
  induction argv with
  | nil => exact absurd rfl hne
  | cons a t ih =>
    have ha : a.any (fun c => c == 0) = false := by
      by_contra hb
      rw [Bool.not_eq_false] at hb
      simp only [List.any_eq_true, beq_iff_eq] at hb
      obtain ⟨x, hx, rfl⟩ := hb
      exact h a (List.mem_cons_self a t) hx
    cases t with
    | nil =>
      simp [assemble_cmdline, ha, List.intercalate, List.intersperse]
    | cons b u =>
      have hih := ih (fun x hx => h x (List.mem_cons_of_mem a hx)) (by simp)
      have hunf : assemble_cmdline (a :: b :: u)
          = if a.any (fun c => c == 0) then .error ERROR_BAD_PATHNAME
            else
              match assemble_cmdline (b :: u) with
              | .error e => .error e
              | .ok r => .ok (append_quoted a ++ 32 :: r) := rfl
      rw [hunf, ha, hih]
      simp [intercalate_cons_sp, List.append_assoc]

/-- C10 (amended): an argument containing NUL makes the whole assembly fail
with `ERROR_BAD_PATHNAME`; otherwise every quoted argument is followed by a
single space (so a non-empty command line carries a trailing space), where a
NON-EMPTY argument free of whitespace/quote/tab/newline/VT passes verbatim,
the empty argument is quoted to a pair of double quotes, and a quoted
argument is wrapped in double quotes with a backslash run before a literal
quote doubled plus one escaping backslash, the trailing backslash run
doubled, and any other backslash run passed unchanged. -/
theorem assemble_cmdline_quoting (argv : List (List Nat)) (arg : List Nat)
    (n c : Nat) (rest : List Nat) :
    ((∃ a ∈ argv, 0 ∈ a) →
      assemble_cmdline argv = .error ERROR_BAD_PATHNAME) ∧
    ((∀ a ∈ argv, 0 ∉ a) → argv ≠ [] →
      assemble_cmdline argv
        = .ok (List.intercalate [32] (argv.map append_quoted) ++ [32])) ∧
    assemble_cmdline [] = .ok [] ∧
    (arg ≠ [] → arg.all (fun x => !special x) → append_quoted arg = arg) ∧
    append_quoted [] = [34, 34] ∧
    (arg.all (fun x => !special x) = false →
      append_quoted arg = 34 :: (quoteScan arg 0 ++ [34])) ∧
    quoteScan (List.replicate n 92) 0 = List.replicate (2 * n) 92 ∧
    quoteScan (List.replicate n 92 ++ 34 :: rest) 0
      = List.replicate (2 * n + 1) 92 ++ 34 :: quoteScan rest 0 ∧
    (c ≠ 34 → c ≠ 92 →
      quoteScan (List.replicate n 92 ++ c :: rest) 0
        = List.replicate n 92 ++ c :: quoteScan rest 0) := by
  refine ⟨assemble_cmdline_nul argv, assemble_cmdline_join argv, rfl,
    ?_, rfl, ?_, ?_, ?_, ?_⟩
  · intro hne hall
    rw [append_quoted, if_pos ⟨hne, hall⟩]
  · intro hfalse
    simp [append_quoted, hfalse]
  · simpa using quoteScan_replicate n [] 0
  · rw [quoteScan_replicate n (34 :: rest) 0]
    simp [quoteScan]
  · intro h34 h92
    rw [quoteScan_replicate n (c :: rest) 0]
    simp [quoteScan, h34, h92]

/-- C10 witness: a NUL-carrying argv is rejected, and a NUL-free argv
assembles to the space-joined quoted arguments with a trailing space. -/
theorem assemble_cmdline_quoting_witness :
    assemble_cmdline [[0]] = .error ERROR_BAD_PATHNAME ∧
    assemble_cmdline [[97], [32]]
      = .ok (List.intercalate [32] ([[97], [32]].map append_quoted) ++ [32]) :=
  ⟨(assemble_cmdline_quoting [[0]] [] 0 0 []).1 (by decide),
   (assemble_cmdline_quoting [[97], [32]] [] 0 0 []).2.1 (by decide)
     (by decide)⟩

end Subprocess
